import Mathlib

/-!
Shallow embedding of the listener-lifecycle registry `EventManager`
(src/src/event-manager.ts).

The class keeps
  `#disposed : boolean`
  `#events : Map<EventTarget, [DisposableStack, Map<symbol, EarlyEventDispose>]>`
and exposes `register`, `deregister` and `[Symbol.dispose]` (the spec calls
the latter `disposeAll`).

Modelling decisions, each keyed to the source:

* Targets and callbacks are opaque objects compared by identity: `Nat`.
  Event names are strings, as in the source (`type EventName = string`).
* Handles are JS `Symbol()` values, globally unique: a `Nat` minted from a
  monotone counter `nextSym` in the state.
* A JS `Map` iterates in insertion order, `set` on an existing key keeps its
  position, `set` on a fresh key appends, `delete` removes the key.  Both
  `#events` and each per-target symbol map are embedded as association lists
  `List (Nat × _)` with exactly these operations (`mapGet`, `mapSet`,
  `mapDelete`).
* A `DisposableStack` is a list of deferred release closures plus a disposed
  flag.  Every closure deferred by `register` has the fixed shape
  `() => \x7b debug-log; this.#callbackDispose(target, eventName, callback) \x7d`,
  so a stack entry is just the captured `Binding` triple.  TC39 semantics
  embedded: `defer` pushes (dispose runs last-deferred-first, our list head
  first); `move()` transfers the entries to a fresh live stack and marks the
  original disposed; `move()` on an already disposed stack throws a
  ReferenceError; disposing a disposed stack is a no-op.
* `addEventListener` may throw; `register` takes that outcome as the boolean
  `attachThrows`.  `removeEventListener` may throw; whether it does is an
  oracle `DetachEnv` given to every teardown operation.
* Observable effects are collected in a trace of events `Ev`:
  `attach`/`detach` record each `addEventListener`/`removeEventListener`
  invocation on a target, `warn` each `console.warn`, `debugLog` each
  `console.debug`.
-/

structure Binding where
  target : Nat
  eventName : String
  callback : Nat
deriving DecidableEq, Repr

structure Stack where
  disposed : Bool
  entries : List Binding
deriving DecidableEq, Repr

abbrev HandleMap := List (Nat × Binding)

abbrev Ledger := Stack × HandleMap

structure ManagerState where
  disposed : Bool
  events : List (Nat × Ledger)
  nextSym : Nat
deriving DecidableEq, Repr

def mapGet {β : Type} (k : Nat) : List (Nat × β) → Option β
  | [] => none
  | p :: rest => if p.1 = k then some p.2 else mapGet k rest

def mapSet {β : Type} (k : Nat) (v : β) : List (Nat × β) → List (Nat × β)
  | [] => [(k, v)]
  | p :: rest => if p.1 = k then (k, v) :: rest else p :: mapSet k v rest

def mapDelete {β : Type} (k : Nat) : List (Nat × β) → List (Nat × β)
  | [] => []
  | p :: rest => if p.1 = k then mapDelete k rest else p :: mapDelete k rest

inductive Ev where
  | attach (target : Nat) (eventName : String) (callback : Nat)
  | detach (target : Nat) (eventName : String) (callback : Nat)
  | warn
  | debugLog
deriving DecidableEq, Repr

/-- Oracle deciding whether `target.removeEventListener(eventName, callback)`
throws for a given triple. -/
abbrev DetachEnv := Nat → String → Nat → Bool

/-- `EventManager.#callbackDispose`: calls `removeEventListener` inside a
try/catch; a failure is caught and logged with `console.debug`, it never
propagates (the function always returns normally, so it is total here). -/
def callbackDispose (env : DetachEnv) (b : Binding) : List Ev :=
  if env b.target b.eventName b.callback then
    [Ev.detach b.target b.eventName b.callback, Ev.debugLog]
  else
    [Ev.detach b.target b.eventName b.callback]

inductive RegOutcome where
  /-- `register` returned the freshly minted symbol. -/
  | ok (handle : Nat)
  /-- `target.addEventListener` threw; the error propagates to the caller. -/
  | attachThrew
  /-- `entry[0].move()` threw a ReferenceError (the stored stack was already
  disposed); the error propagates to the caller before `addEventListener`. -/
  | moveThrew
deriving DecidableEq, Repr

structure RegResult where
  outcome : RegOutcome
  state : ManagerState
  trace : List Ev
deriving DecidableEq, Repr

/-- `EventManager.register`.  Source order of effects: look the target up in
`#events`; make a live local stack (fresh, or `entry[0].move()` which leaves
the stored stack disposed and empty); call `addEventListener` (may throw);
`stack.defer` the release closure; mint `Symbol()`; store the early-dispose
closure under the symbol; write `[stack.move(), earlyDisposeMap]` back into
`#events`. -/
def register (attachThrows : Bool) (t : Nat) (e : String) (c : Nat)
    (st : ManagerState) : RegResult :=
  match mapGet t st.events with
  | none =>
      if attachThrows then
        { outcome := .attachThrew, state := st, trace := [Ev.attach t e c] }
      else
        { outcome := .ok st.nextSym,
          state := { disposed := st.disposed,
                     events := mapSet t
                       (⟨false, [⟨t, e, c⟩]⟩, [(st.nextSym, ⟨t, e, c⟩)])
                       st.events,
                     nextSym := st.nextSym + 1 },
          trace := [Ev.attach t e c] }
  | some (stk, m) =>
      if stk.disposed then
        { outcome := .moveThrew, state := st, trace := [] }
      else
        if attachThrows then
          { outcome := .attachThrew,
            state := { st with
                       events := mapSet t (⟨true, []⟩, m) st.events },
            trace := [Ev.attach t e c] }
        else
          { outcome := .ok st.nextSym,
            state := { disposed := st.disposed,
                       events := mapSet t
                         (⟨false, ⟨t, e, c⟩ :: stk.entries⟩,
                          mapSet st.nextSym ⟨t, e, c⟩ m)
                         st.events,
                       nextSym := st.nextSym + 1 },
            trace := [Ev.attach t e c] }

structure DeregResult where
  state : ManagerState
  trace : List Ev
  /-- `true` iff the call propagated an exception (only possible from
  `entry[0].move()` on a disposed stored stack inside the stored closure). -/
  threw : Bool
deriving DecidableEq, Repr

/-- `EventManager.deregister`.  Looks the target up in `#events` (missing →
`console.warn`, no-op), then the symbol in the early-dispose map (missing →
`console.warn`, no-op), else invokes the stored closure from `register`:
debug-log; `#callbackDispose`; re-fetch the entry (missing → warn, return);
`currentStack := entry[0].move()`; delete the symbol from the map; if the map
became empty delete the target from `#events`, else store
`[currentStack.move(), map]` back. -/
def deregister (env : DetachEnv) (t : Nat) (h : Nat)
    (st : ManagerState) : DeregResult :=
  match mapGet t st.events with
  | none => { state := st, trace := [Ev.warn], threw := false }
  | some (_, m) =>
      match mapGet h m with
      | none => { state := st, trace := [Ev.warn], threw := false }
      | some b =>
          let tr1 := Ev.debugLog :: callbackDispose env b
          match mapGet t st.events with
          | none => { state := st, trace := tr1 ++ [Ev.warn], threw := false }
          | some (stk2, m2) =>
              if stk2.disposed then
                { state := st, trace := tr1, threw := true }
              else
                let m3 := mapDelete h m2
                if m3.isEmpty then
                  { state := { st with events := mapDelete t st.events },
                    trace := tr1, threw := false }
                else
                  { state := { st with
                               events := mapSet t (stk2, m3) st.events },
                    trace := tr1, threw := false }

/-- Disposing one stored stack: a no-op when the stack is already disposed,
otherwise each deferred closure runs in last-deferred-first order, and each
closure debug-logs then calls `#callbackDispose` (which never throws). -/
def stackDispose (env : DetachEnv) (stk : Stack) : List Ev :=
  if stk.disposed then []
  else (stk.entries.map (fun b => Ev.debugLog :: callbackDispose env b)).flatten

/-- `EventManager[Symbol.dispose]` (the spec name is `disposeAll`): when the
one-shot `#disposed` flag is unset, set it, dispose every stored stack in map
insertion order, clear `#events`, and debug-log. -/
def disposeAll (env : DetachEnv) (st : ManagerState) : ManagerState × List Ev :=
  if st.disposed then (st, [])
  else
    (⟨true, [], st.nextSym⟩,
     (st.events.map (fun p => stackDispose env p.2.1)).flatten ++ [Ev.debugLog])

/-- One caller-visible operation on the registry, including the case where
`addEventListener` throws during a registration. -/
inductive Op where
  | regOk (t : Nat) (e : String) (c : Nat)
  | regFail (t : Nat) (e : String) (c : Nat)
  | dereg (t : Nat) (h : Nat)
  | dispose
deriving DecidableEq, Repr

def step (env : DetachEnv) (st : ManagerState) : Op → ManagerState
  | .regOk t e c => (register false t e c st).state
  | .regFail t e c => (register true t e c st).state
  | .dereg t h => (deregister env t h st).state
  | .dispose => (disposeAll env st).1

/-- A fresh `new EventManager()`. -/
def initState : ManagerState := ⟨false, [], 0⟩

/-- The state after running a sequence of operations on a fresh manager. -/
def run (env : DetachEnv) (ops : List Op) : ManagerState :=
  ops.foldl (step env) initState

/-- The subsequence of `removeEventListener` invocations in a trace. -/
def detaches (tr : List Ev) : List (Nat × String × Nat) :=
  tr.filterMap (fun ev =>
    match ev with
    | Ev.detach t e c => some (t, e, c)
    | _ => none)

/-- An environment in which no `removeEventListener` call throws. -/
def envOk : DetachEnv := fun _ _ _ => false

-- scratch checks
example :
    run envOk [Op.regOk 0 "a" 0, Op.regOk 0 "b" 1] =
      ⟨false, [(0, (⟨false, [⟨0, "b", 1⟩, ⟨0, "a", 0⟩]⟩,
        [(0, ⟨0, "a", 0⟩), (1, ⟨0, "b", 1⟩)]))], 2⟩ := by decide

example :
    detaches (disposeAll envOk (run envOk [Op.regOk 0 "a" 0, Op.regOk 0 "b" 1])).2 =
      [(0, "b", 1), (0, "a", 0)] := by decide

example :
    (deregister envOk 0 0 (run envOk [Op.regOk 0 "a" 0, Op.regOk 0 "b" 1])).state =
      ⟨false, [(0, (⟨false, [⟨0, "b", 1⟩, ⟨0, "a", 0⟩]⟩, [(1, ⟨0, "b", 1⟩)]))], 2⟩ := by
  decide

/-- Every binding recorded under a target key names that target; this holds
in every reachable state, since `register` stores the captured triple under
the same target it attaches to. -/
abbrev WFTargets (st : ManagerState) : Prop :=
  ∀ p ∈ st.events, (∀ b ∈ p.2.1.entries, b.target = p.1) ∧
    (∀ q ∈ p.2.2, q.2.target = p.1)

/-- The operation sequence registering `regs` (event name, callback pairs)
one after another on the single target `t`, every attach succeeding. -/
def regOps (t : Nat) (regs : List (String × Nat)) : List Op :=
  regs.map (fun p => Op.regOk t p.1 p.2)

/-- The bindings those registrations create, in registration order. -/
def regBindings (t : Nat) (regs : List (String × Nat)) : List Binding :=
  regs.map (fun p => ⟨t, p.1, p.2⟩)

/-- Handle sanity preserved by every operation: every stored handle was
minted below the symbol counter, and a handle resolves in at most one
target's ledger (JS `Symbol()` values are globally unique). -/
def HandlesOk (st : ManagerState) : Prop :=
  (∀ p ∈ st.events, ∀ h b, mapGet h p.2.2 = some b → h < st.nextSym) ∧
  (∀ p ∈ st.events, ∀ p' ∈ st.events, ∀ h b b',
    mapGet h p.2.2 = some b → mapGet h p'.2.2 = some b' → p.1 = p'.1)

/-- An environment in which every `removeEventListener` call throws. -/
def envBad : DetachEnv := fun _ _ _ => true


/-! ### Association-list (JS `Map`) lemmas -/

theorem mapGet_mapSet_self {β : Type} (k : Nat) (v : β) (l : List (Nat × β)) :
    mapGet k (mapSet k v l) = some v := by
  induction l with
  | nil => simp [mapSet, mapGet]
  | cons p rest ih =>
      by_cases h : p.1 = k <;> simp [mapSet, mapGet, h, ih]

theorem mapGet_mapSet_ne {β : Type} {k k' : Nat} (h : k' ≠ k) (v : β)
    (l : List (Nat × β)) : mapGet k' (mapSet k v l) = mapGet k' l := by
  induction l with
  | nil => simp [mapSet, mapGet, Ne.symm h]
  | cons p rest ih =>
      by_cases hp : p.1 = k
      · simp [mapSet, mapGet, hp, Ne.symm h]
      · simp [mapSet, mapGet, hp, ih]

theorem mapGet_mem {β : Type} {k : Nat} {v : β} {l : List (Nat × β)}
    (h : mapGet k l = some v) : (k, v) ∈ l := by
  induction l with
  | nil => simp [mapGet] at h
  | cons p rest ih =>
      obtain ⟨p1, p2⟩ := p
      by_cases hp : p1 = k
      · subst hp
        simp [mapGet] at h
        subst h
        exact List.mem_cons_self _ _
      · simp [mapGet, hp] at h
        exact List.mem_cons_of_mem _ (ih h)

theorem mem_mapSet {β : Type} {p : Nat × β} {k : Nat} {v : β}
    {l : List (Nat × β)} (h : p ∈ mapSet k v l) : p = (k, v) ∨ p ∈ l := by
  induction l with
  | nil => simp [mapSet] at h; left; exact h
  | cons q rest ih =>
      by_cases hq : q.1 = k
      · simp only [mapSet, if_pos hq] at h
        rcases List.mem_cons.mp h with h | h
        · left; exact h
        · right; exact List.mem_cons_of_mem _ h
      · simp only [mapSet, if_neg hq] at h
        rcases List.mem_cons.mp h with h | h
        · right; subst h; exact List.mem_cons_self _ _
        · rcases ih h with h' | h'
          · left; exact h'
          · right; exact List.mem_cons_of_mem _ h'

theorem mem_mapDelete {β : Type} {p : Nat × β} {k : Nat}
    {l : List (Nat × β)} (h : p ∈ mapDelete k l) : p ∈ l := by
  induction l with
  | nil => simp [mapDelete] at h
  | cons q rest ih =>
      by_cases hq : q.1 = k
      · simp only [mapDelete, if_pos hq] at h
        exact List.mem_cons_of_mem _ (ih h)
      · simp only [mapDelete, if_neg hq] at h
        rcases List.mem_cons.mp h with h | h
        · subst h; exact List.mem_cons_self _ _
        · exact List.mem_cons_of_mem _ (ih h)

theorem mapGet_mapDelete_self {β : Type} (k : Nat) (l : List (Nat × β)) :
    mapGet k (mapDelete k l) = none := by
  induction l with
  | nil => simp [mapDelete, mapGet]
  | cons p rest ih =>
      by_cases hp : p.1 = k <;> simp [mapDelete, mapGet, hp, ih]

theorem mapGet_mapDelete_some {β : Type} {k k' : Nat} {v : β}
    {l : List (Nat × β)} (hne : k' ≠ k)
    (h : mapGet k' (mapDelete k l) = some v) : mapGet k' l = some v := by
  induction l with
  | nil => simp [mapDelete, mapGet] at h
  | cons p rest ih =>
      by_cases hp : p.1 = k
      · simp only [mapDelete, if_pos hp] at h
        have hne' : ¬p.1 = k' := by
          rw [hp]
          exact Ne.symm hne
        simp only [mapGet, if_neg hne']
        exact ih h
      · simp only [mapDelete, if_neg hp] at h
        by_cases hp' : p.1 = k'
        · simp only [mapGet, if_pos hp'] at h ⊢
          exact h
        · simp only [mapGet, if_neg hp'] at h ⊢
          exact ih h

theorem mapSet_ne_nil {β : Type} (k : Nat) (v : β) (l : List (Nat × β)) :
    mapSet k v l ≠ [] := by
  cases l with
  | nil => simp [mapSet]
  | cons p rest =>
      by_cases hp : p.1 = k <;> simp [mapSet, hp]

/-! ### Claim C4: disposal is idempotent -/

/-- C4: `disposeAll` is idempotent.  For every registry state and detach
environment, a second (and hence any later) `disposeAll` leaves the state of
the first one unchanged and produces no observable effects at all (empty
trace), because the one-shot `#disposed` flag makes the body execute at most
once. -/
theorem disposeAll_idempotent (env : DetachEnv) (st : ManagerState) :
    (disposeAll env (disposeAll env st).1).1 = (disposeAll env st).1 ∧
    (disposeAll env (disposeAll env st).1).2 = [] := by
  unfold disposeAll
  by_cases h : st.disposed <;> simp [h]

/-! ### Claim C5: after disposal the registry is fully empty -/

/-- C5: running `disposeAll` on a not-yet-disposed registry clears the whole
target-to-ledger map, and afterwards `deregister` with any target and any
previously issued handle finds no ledger and no release action: it only warns
and changes nothing. -/
theorem disposeAll_empties (env : DetachEnv) (st : ManagerState)
    (hd : st.disposed = false) :
    (disposeAll env st).1.events = [] ∧
    ∀ t h, deregister env t h (disposeAll env st).1 =
      ⟨(disposeAll env st).1, [Ev.warn], false⟩ := by
  unfold disposeAll
  simp only [hd]
  refine ⟨rfl, ?_⟩
  intro t h
  rfl

/-- Witness for C5 at a concrete state holding two live bindings. -/
theorem disposeAll_empties_witness :
    (run envOk [Op.regOk 0 "a" 0, Op.regOk 1 "b" 1]).disposed = false ∧
    (disposeAll envOk (run envOk [Op.regOk 0 "a" 0, Op.regOk 1 "b" 1])).1.events = [] ∧
    deregister envOk 0 0 (disposeAll envOk (run envOk [Op.regOk 0 "a" 0, Op.regOk 1 "b" 1])).1 =
      ⟨(disposeAll envOk (run envOk [Op.regOk 0 "a" 0, Op.regOk 1 "b" 1])).1,
       [Ev.warn], false⟩ := by
  refine ⟨by decide, ?_, ?_⟩
  · exact (disposeAll_empties envOk _ (by decide)).1
  · exact (disposeAll_empties envOk _ (by decide)).2 0 0

/-! ### Claim C6: deregister with a missing ledger or handle is a safe no-op -/

/-- Shared helper: when the target is untracked or its ledger does not hold
the handle, `deregister` only warns and returns the state unchanged. -/
theorem deregister_warn_of_absent (env : DetachEnv) (st : ManagerState)
    (t h : Nat)
    (habs : ∀ stk m, mapGet t st.events = some (stk, m) → mapGet h m = none) :
    deregister env t h st = ⟨st, [Ev.warn], false⟩ := by
  cases he : mapGet t st.events with
  | none =>
      unfold deregister
      rw [he]
  | some p =>
      obtain ⟨stk, m⟩ := p
      unfold deregister
      simp only [he, habs stk m he]

/-- C6: if the target has no ledger, or its ledger does not hold the given
handle, `deregister` does not throw, performs no detach, leaves the whole
registry state unchanged, and only emits a `console.warn`. -/
theorem deregister_missing_noop (env : DetachEnv) (st : ManagerState)
    (t h : Nat)
    (habs : ∀ stk m, mapGet t st.events = some (stk, m) → mapGet h m = none) :
    deregister env t h st = ⟨st, [Ev.warn], false⟩ :=
  deregister_warn_of_absent env st t h habs

/-- Witness for C6: deregistering an unknown handle on a tracked target, with
a live binding present, warns and changes nothing. -/
theorem deregister_missing_noop_witness :
    (∀ stk m, mapGet 0 (run envOk [Op.regOk 0 "a" 0]).events = some (stk, m) →
      mapGet 99 m = none) ∧
    deregister envOk 0 99 (run envOk [Op.regOk 0 "a" 0]) =
      ⟨run envOk [Op.regOk 0 "a" 0], [Ev.warn], false⟩ := by
  have habs : ∀ stk m,
      mapGet 0 (run envOk [Op.regOk 0 "a" 0]).events = some (stk, m) →
      mapGet 99 m = none := by
    intro stk m hm
    have : (stk, m) = (⟨false, [⟨0, "a", 0⟩]⟩, [(0, ⟨0, "a", 0⟩)]) := by
      have hrun : mapGet 0 (run envOk [Op.regOk 0 "a" 0]).events =
          some (⟨false, [⟨0, "a", 0⟩]⟩, [(0, ⟨0, "a", 0⟩)]) := by decide
      rw [hrun] at hm
      exact (Option.some_injective _ hm).symm
    rw [show m = [(0, ⟨0, "a", 0⟩)] from congrArg Prod.snd this]
    decide
  exact ⟨habs, deregister_missing_noop envOk _ 0 99 habs⟩

/-! ### Claim C9: register still works after disposal, but is then orphaned -/

/-- C9: after the registry is disposed (`#disposed = true`), `register` on an
untracked target still succeeds exactly as usual: it calls
`addEventListener`, creates a fresh ledger holding the one binding, and
returns the fresh handle; but a later `disposeAll` is a complete no-op (no
detach, ledger kept), because `register` neither consults nor resets the
one-shot flag. -/
theorem register_after_dispose (env : DetachEnv) (st : ManagerState)
    (t : Nat) (e : String) (c : Nat)
    (hd : st.disposed = true) (hnew : mapGet t st.events = none) :
    (register false t e c st).outcome = RegOutcome.ok st.nextSym ∧
    (register false t e c st).trace = [Ev.attach t e c] ∧
    mapGet t (register false t e c st).state.events =
      some (⟨false, [⟨t, e, c⟩]⟩, [(st.nextSym, ⟨t, e, c⟩)]) ∧
    disposeAll env (register false t e c st).state =
      ((register false t e c st).state, []) := by
  have hreg : register false t e c st =
      { outcome := .ok st.nextSym,
        state := { disposed := st.disposed,
                   events := mapSet t
                     (⟨false, [⟨t, e, c⟩]⟩, [(st.nextSym, ⟨t, e, c⟩)])
                     st.events,
                   nextSym := st.nextSym + 1 },
        trace := [Ev.attach t e c] } := by
    unfold register
    rw [hnew]
    rfl
  refine ⟨by rw [hreg], by rw [hreg], ?_, ?_⟩
  · rw [hreg]
    exact mapGet_mapSet_self _ _ _
  · rw [hreg]
    unfold disposeAll
    simp [hd]

/-- Witness for C9: dispose a registry holding a binding, register a new
listener on a fresh target, observe a live ledger that a second disposal
never clears. -/
theorem register_after_dispose_witness :
    (run envOk [Op.regOk 0 "a" 0, Op.dispose]).disposed = true ∧
    mapGet 5 (run envOk [Op.regOk 0 "a" 0, Op.dispose]).events = none ∧
    ((register false 5 "b" 2 (run envOk [Op.regOk 0 "a" 0, Op.dispose])).outcome =
        RegOutcome.ok (run envOk [Op.regOk 0 "a" 0, Op.dispose]).nextSym ∧
      (register false 5 "b" 2 (run envOk [Op.regOk 0 "a" 0, Op.dispose])).trace =
        [Ev.attach 5 "b" 2] ∧
      mapGet 5 (register false 5 "b" 2
          (run envOk [Op.regOk 0 "a" 0, Op.dispose])).state.events =
        some (⟨false, [⟨5, "b", 2⟩]⟩,
          [((run envOk [Op.regOk 0 "a" 0, Op.dispose]).nextSym, ⟨5, "b", 2⟩)]) ∧
      disposeAll envOk (register false 5 "b" 2
          (run envOk [Op.regOk 0 "a" 0, Op.dispose])).state =
        ((register false 5 "b" 2
          (run envOk [Op.regOk 0 "a" 0, Op.dispose])).state, [])) :=
  ⟨by decide, by decide,
   register_after_dispose envOk _ 5 "b" 2 (by decide) (by decide)⟩

/-! ### Helper lemmas for teardown traces -/

theorem mem_mapDelete_ne {β : Type} {p : Nat × β} {k : Nat}
    {l : List (Nat × β)} (h : p ∈ mapDelete k l) : p.1 ≠ k := by
  induction l with
  | nil => simp [mapDelete] at h
  | cons q rest ih =>
      by_cases hq : q.1 = k
      · simp only [mapDelete, if_pos hq] at h
        exact ih h
      · simp only [mapDelete, if_neg hq] at h
        rcases List.mem_cons.mp h with h | h
        · subst h; exact hq
        · exact ih h

theorem mapDelete_eq_nil {β : Type} {k : Nat} {l : List (Nat × β)}
    (h : ∀ q ∈ l, q.1 = k) : mapDelete k l = [] := by
  induction l with
  | nil => rfl
  | cons q rest ih =>
      simp only [mapDelete, if_pos (h q (List.mem_cons_self _ _))]
      exact ih (fun q' hq' => h q' (List.mem_cons_of_mem _ hq'))

/-- Any `removeEventListener` call made while disposing one stored stack
came from one of the stack's deferred release closures, each of which names
its captured target. -/
theorem detach_mem_stackDispose {env : DetachEnv} {stk : Stack} {x : Nat}
    {e : String} {c : Nat} (h : Ev.detach x e c ∈ stackDispose env stk) :
    ∃ b ∈ stk.entries, b.target = x := by
  unfold stackDispose at h
  by_cases hd : stk.disposed
  · simp [hd] at h
  · simp only [hd, Bool.false_eq_true, if_false] at h
    rcases List.mem_flatten.mp h with ⟨l, hl, hev⟩
    rcases List.mem_map.mp hl with ⟨b, hb, hbl⟩
    refine ⟨b, hb, ?_⟩
    subst hbl
    rcases List.mem_cons.mp hev with h' | h'
    · exact absurd h' (by simp)
    · unfold callbackDispose at h'
      by_cases he : env b.target b.eventName b.callback <;>
        simp [he, Ev.detach.injEq] at h' <;>
        exact h'.1.symm

/-- Any `removeEventListener` call made during `disposeAll` came from a
deferred release closure stored under some tracked target. -/
theorem detach_mem_disposeAll {env : DetachEnv} {s : ManagerState} {x : Nat}
    {e : String} {c : Nat} (h : Ev.detach x e c ∈ (disposeAll env s).2) :
    ∃ p ∈ s.events, ∃ b ∈ p.2.1.entries, b.target = x := by
  unfold disposeAll at h
  by_cases hd : s.disposed
  · simp [hd] at h
  · simp only [hd, Bool.false_eq_true, if_false] at h
    rcases List.mem_append.mp h with h | h
    · rcases List.mem_flatten.mp h with ⟨l, hl, hev⟩
      rcases List.mem_map.mp hl with ⟨p, hp, hpl⟩
      subst hpl
      rcases detach_mem_stackDispose hev with ⟨b, hb, hbx⟩
      exact ⟨p, hp, b, hb, hbx⟩
    · simp at h

/-! ### Claim C1: deregister versus the ordered release sequence -/

/-- C1 counterexample.  Register two listeners on target `0` (handles `0`
and `1`), deregister handle `0`, then dispose.  Contrary to the claim, after
the successful deregistration the released binding is still present in the
target's ordered release sequence (only the handle map dropped it), and the
target observes `removeEventListener` for that binding twice: once from
`deregister` and once more from `disposeAll`. -/
theorem deregister_double_detach_counterexample :
    (deregister envOk 0 0 (run envOk [Op.regOk 0 "a" 0, Op.regOk 0 "b" 1])).threw
      = false ∧
    mapGet 0 (deregister envOk 0 0
        (run envOk [Op.regOk 0 "a" 0, Op.regOk 0 "b" 1])).state.events =
      some (⟨false, [⟨0, "b", 1⟩, ⟨0, "a", 0⟩]⟩, [(1, ⟨0, "b", 1⟩)]) ∧
    List.count (0, "a", 0) (detaches
      ((deregister envOk 0 0 (run envOk [Op.regOk 0 "a" 0, Op.regOk 0 "b" 1])).trace ++
       (disposeAll envOk (deregister envOk 0 0
         (run envOk [Op.regOk 0 "a" 0, Op.regOk 0 "b" 1])).state).2)) = 2 := by
  decide

/-- C1 as amended.  A successful `deregister(target, h)` never throws and
always removes `h` from the target's handle map; but only when `h` was the
target's last live binding is the whole ledger (with its ordered release
sequence) deleted, in which case a subsequent `disposeAll` performs no detach
on that target at all.  When other bindings remain, the ordered release
sequence is kept entirely unchanged, so the released binding's deferred
release action stays in it and the no-double-detach guarantee does not hold
there (see the counterexample). -/
theorem deregister_release_amended (env : DetachEnv) (st : ManagerState)
    (t h : Nat) (stk : Stack) (m : HandleMap) (b : Binding)
    (hWF : WFTargets st)
    (hentry : mapGet t st.events = some (stk, m))
    (hstk : stk.disposed = false)
    (hhand : mapGet h m = some b) :
    (deregister env t h st).threw = false ∧
    (∀ stk' m', mapGet t (deregister env t h st).state.events = some (stk', m') →
      mapGet h m' = none) ∧
    ((∀ q ∈ m, q.1 = h) →
      mapGet t (deregister env t h st).state.events = none ∧
      ∀ x e' c', Ev.detach x e' c' ∈
        (disposeAll env (deregister env t h st).state).2 → x ≠ t) ∧
    (mapDelete h m ≠ [] →
      mapGet t (deregister env t h st).state.events =
        some (stk, mapDelete h m)) := by
  by_cases hemp : (mapDelete h m).isEmpty
  · have hd : deregister env t h st =
        ⟨{ st with events := mapDelete t st.events },
         Ev.debugLog :: callbackDispose env b, false⟩ := by
      unfold deregister
      simp only [hentry, hhand, hstk, hemp, Bool.false_eq_true, if_false,
        if_true]
    refine ⟨by rw [hd], ?_, ?_, ?_⟩
    · intro stk' m' hm'
      rw [hd] at hm'
      simp only at hm'
      rw [mapGet_mapDelete_self] at hm'
      exact Option.noConfusion hm'
    · intro _
      refine ⟨by rw [hd]; simp only; exact mapGet_mapDelete_self _ _, ?_⟩
      intro x e' c' hx
      rw [hd] at hx
      rcases detach_mem_disposeAll hx with ⟨p, hp, b', hb', hbx⟩
      simp only at hp
      have hpt : p.1 ≠ t := mem_mapDelete_ne hp
      have hbt : b'.target = p.1 :=
        (hWF p (mem_mapDelete hp)).1 b' hb'
      rw [← hbx, hbt]
      exact hpt
    · intro hne
      exact absurd (List.isEmpty_iff.mp hemp) hne
  · have hd : deregister env t h st =
        ⟨{ st with events := mapSet t (stk, mapDelete h m) st.events },
         Ev.debugLog :: callbackDispose env b, false⟩ := by
      unfold deregister
      simp only [hentry, hhand, hstk, hemp, Bool.false_eq_true, if_false]
    refine ⟨by rw [hd], ?_, ?_, ?_⟩
    · intro stk' m' hm'
      rw [hd] at hm'
      simp only at hm'
      rw [mapGet_mapSet_self] at hm'
      simp only [Option.some.injEq, Prod.mk.injEq] at hm'
      rw [← hm'.2]
      exact mapGet_mapDelete_self _ _
    · intro hall
      exact absurd (mapDelete_eq_nil hall)
        (fun hc => by rw [hc] at hemp; exact hemp rfl)
    · intro _
      rw [hd]
      simp only
      exact mapGet_mapSet_self _ _ _

/-- Witness for the amended C1 at a concrete single-binding registry. -/
theorem deregister_release_amended_witness :
    WFTargets (run envOk [Op.regOk 0 "a" 0]) ∧
    mapGet 0 (run envOk [Op.regOk 0 "a" 0]).events =
      some (⟨false, [⟨0, "a", 0⟩]⟩, [(0, ⟨0, "a", 0⟩)]) ∧
    (⟨false, [⟨0, "a", 0⟩]⟩ : Stack).disposed = false ∧
    mapGet 0 ([(0, ⟨0, "a", 0⟩)] : HandleMap) = some (⟨0, "a", 0⟩ : Binding) ∧
    ((deregister envOk 0 0 (run envOk [Op.regOk 0 "a" 0])).threw = false ∧
      (∀ stk' m', mapGet 0 (deregister envOk 0 0
          (run envOk [Op.regOk 0 "a" 0])).state.events = some (stk', m') →
        mapGet 0 m' = none) ∧
      ((∀ q ∈ ([(0, ⟨0, "a", 0⟩)] : HandleMap), q.1 = 0) →
        mapGet 0 (deregister envOk 0 0
          (run envOk [Op.regOk 0 "a" 0])).state.events = none ∧
        ∀ x e' c', Ev.detach x e' c' ∈
          (disposeAll envOk (deregister envOk 0 0
            (run envOk [Op.regOk 0 "a" 0])).state).2 → x ≠ 0) ∧
      (mapDelete 0 ([(0, ⟨0, "a", 0⟩)] : HandleMap) ≠ [] →
        mapGet 0 (deregister envOk 0 0
          (run envOk [Op.regOk 0 "a" 0])).state.events =
          some (⟨false, [⟨0, "a", 0⟩]⟩, mapDelete 0 [(0, ⟨0, "a", 0⟩)]))) :=
  ⟨by decide, by decide, rfl, by decide,
   deregister_release_amended envOk (run envOk [Op.regOk 0 "a" 0]) 0 0
     ⟨false, [⟨0, "a", 0⟩]⟩ [(0, ⟨0, "a", 0⟩)] ⟨0, "a", 0⟩
     (by decide) (by decide) rfl (by decide)⟩

/-! ### Claim C2: a failing attach must leave no partial state -/

/-- C2: evaluation of the code at the failing input.  Start from a registry
with one live binding on target `0`; call `register` on the same target with
`addEventListener` throwing.  The failure is indeed surfaced to the caller,
but — because `register` runs `entry[0].move()` before attaching — the
stored ledger's release stack is left moved-out (disposed and empty): the
state is not what it was before the call, and a subsequent `disposeAll`
detaches nothing at all, silently leaking the pre-existing listener.  This
contradicts the documented contract that a failed registration performs no
bookkeeping and leaves no partial state. -/
theorem register_attach_failure_partial_state :
    (register true 0 "b" 1 (run envOk [Op.regOk 0 "a" 0])).outcome =
      RegOutcome.attachThrew ∧
    (register true 0 "b" 1 (run envOk [Op.regOk 0 "a" 0])).state ≠
      run envOk [Op.regOk 0 "a" 0] ∧
    mapGet 0 (register true 0 "b" 1
        (run envOk [Op.regOk 0 "a" 0])).state.events =
      some (⟨true, []⟩, [(0, ⟨0, "a", 0⟩)]) ∧
    detaches (disposeAll envOk (register true 0 "b" 1
        (run envOk [Op.regOk 0 "a" 0])).state).2 = [] := by
  decide

/-! ### Claim C3: disposal detaches in reverse-registration order -/

theorem step_regOk_tracked (env : DetachEnv) (t : Nat) (e : String) (c : Nat)
    (bs : List Binding) (hm : HandleMap) (n : Nat) :
    step env ⟨false, [(t, (⟨false, bs⟩, hm))], n⟩ (Op.regOk t e c) =
      ⟨false, [(t, (⟨false, ⟨t, e, c⟩ :: bs⟩, mapSet n ⟨t, e, c⟩ hm))],
       n + 1⟩ := by
  unfold step register
  simp [mapGet, mapSet]

theorem foldl_regOps_tracked (env : DetachEnv) (t : Nat)
    (regs : List (String × Nat)) :
    ∀ (bs : List Binding) (hm : HandleMap) (n : Nat),
    ∃ hm' n',
      (regOps t regs).foldl (step env) ⟨false, [(t, (⟨false, bs⟩, hm))], n⟩ =
        ⟨false, [(t, (⟨false, (regBindings t regs).reverse ++ bs⟩, hm'))],
         n'⟩ := by
  induction regs with
  | nil =>
      intro bs hm n
      exact ⟨hm, n, by simp [regOps, regBindings]⟩
  | cons p rest ih =>
      intro bs hm n
      have hops : regOps t (p :: rest) =
          Op.regOk t p.1 p.2 :: regOps t rest := rfl
      rw [hops, List.foldl_cons, step_regOk_tracked]
      rcases ih (⟨t, p.1, p.2⟩ :: bs) (mapSet n ⟨t, p.1, p.2⟩ hm) (n + 1) with
        ⟨hm', n', heq⟩
      refine ⟨hm', n', ?_⟩
      rw [heq]
      have hrev : (regBindings t (p :: rest)).reverse ++ bs =
          (regBindings t rest).reverse ++ (⟨t, p.1, p.2⟩ :: bs) := by
        simp [regBindings]
      rw [hrev]

theorem detaches_flatten_closures (env : DetachEnv) (bs : List Binding) :
    detaches ((bs.map (fun b => Ev.debugLog :: callbackDispose env b)).flatten)
      = bs.map (fun b => (b.target, b.eventName, b.callback)) := by
  induction bs with
  | nil => rfl
  | cons b rest ih =>
      simp only [List.map_cons, List.flatten_cons]
      unfold detaches at ih ⊢
      rw [List.filterMap_append, ih]
      unfold callbackDispose
      by_cases he : env b.target b.eventName b.callback <;> simp [he]

/-- C3: for every sequence of successful `register` calls on one target `t`,
a single `disposeAll` produces `removeEventListener` calls for exactly the
registered bindings, each exactly once, in strict last-registered-first
order.  In particular, registering A, B, C and disposing detaches C, B, A. -/
theorem disposeAll_reverse_order (env : DetachEnv) (t : Nat)
    (regs : List (String × Nat)) :
    detaches (disposeAll env (run env (regOps t regs))).2 =
      (regs.map (fun p => (t, p.1, p.2))).reverse := by
  cases regs with
  | nil => rfl
  | cons p rest =>
      have hops : regOps t (p :: rest) =
          Op.regOk t p.1 p.2 :: regOps t rest := rfl
      have hfirst : step env initState (Op.regOk t p.1 p.2) =
          ⟨false, [(t, (⟨false, [⟨t, p.1, p.2⟩]⟩, [(0, ⟨t, p.1, p.2⟩)]))],
           1⟩ := by
        unfold step register initState
        simp [mapGet, mapSet]
      rcases foldl_regOps_tracked env t rest [⟨t, p.1, p.2⟩]
          [(0, ⟨t, p.1, p.2⟩)] 1 with ⟨hm', n', heq⟩
      have hrun : run env (regOps t (p :: rest)) =
          ⟨false, [(t, (⟨false,
            (regBindings t rest).reverse ++ [⟨t, p.1, p.2⟩]⟩, hm'))], n'⟩ := by
        unfold run
        rw [hops, List.foldl_cons, hfirst, heq]
      rw [hrun]
      unfold disposeAll
      simp only [Bool.false_eq_true, if_false, List.map_cons, List.map_nil,
        List.flatten_cons, List.flatten_nil, List.append_nil]
      unfold stackDispose
      simp only [Bool.false_eq_true, if_false]
      unfold detaches
      rw [List.filterMap_append]
      have hclos := detaches_flatten_closures env
        ((regBindings t rest).reverse ++ [⟨t, p.1, p.2⟩])
      unfold detaches at hclos
      rw [hclos]
      simp [regBindings, List.map_reverse, Function.comp]

/-! ### Claim C7: a ledger exists only for targets with a live binding -/

theorem step_ledgers_nonempty (env : DetachEnv) (op : Op) (st : ManagerState)
    (hInv : ∀ p ∈ st.events, p.2.2 ≠ []) :
    ∀ p ∈ (step env st op).events, p.2.2 ≠ [] := by
  cases op with
  | regOk t e c =>
      unfold step register
      dsimp only
      cases hget : mapGet t st.events with
      | none =>
          dsimp only
          intro p hp
          rcases mem_mapSet hp with rfl | hp'
          · simp
          · exact hInv p hp'
      | some q =>
          obtain ⟨stk, m⟩ := q
          dsimp only
          cases hd : stk.disposed with
          | true =>
              simp only [hd, if_true]
              exact hInv
          | false =>
              simp only [hd, Bool.false_eq_true, if_false]
              intro p hp
              rcases mem_mapSet hp with rfl | hp'
              · exact mapSet_ne_nil _ _ _
              · exact hInv p hp'
  | regFail t e c =>
      unfold step register
      dsimp only
      cases hget : mapGet t st.events with
      | none => exact hInv
      | some q =>
          obtain ⟨stk, m⟩ := q
          dsimp only
          cases hd : stk.disposed with
          | true =>
              simp only [hd, if_true]
              exact hInv
          | false =>
              simp only [hd, Bool.false_eq_true, if_false, if_true]
              intro p hp
              rcases mem_mapSet hp with rfl | hp'
              · exact hInv (t, (stk, m)) (mapGet_mem hget)
              · exact hInv p hp'
  | dereg t h =>
      unfold step deregister
      dsimp only
      cases hget : mapGet t st.events with
      | none => exact hInv
      | some q =>
          obtain ⟨stk, m⟩ := q
          dsimp only
          cases hh : mapGet h m with
          | none => exact hInv
          | some b =>
              dsimp only
              cases hd : stk.disposed with
              | true =>
                  simp only [hd, if_true]
                  exact hInv
              | false =>
                  simp only [hd, Bool.false_eq_true, if_false]
                  cases hemp : (mapDelete h m).isEmpty with
                  | true =>
                      simp only [if_true]
                      intro p hp
                      exact hInv p (mem_mapDelete hp)
                  | false =>
                      simp only [Bool.false_eq_true, if_false]
                      intro p hp
                      rcases mem_mapSet hp with rfl | hp'
                      · dsimp only
                        intro hc
                        rw [hc] at hemp
                        simp [List.isEmpty] at hemp
                      · exact hInv p hp'
  | dispose =>
      unfold step disposeAll
      dsimp only
      cases hd : st.disposed with
      | true =>
          simp only [hd, if_true]
          exact hInv
      | false =>
          simp only [hd, Bool.false_eq_true, if_false]
          intro p hp
          simp at hp

theorem foldl_ledgers_nonempty (env : DetachEnv) (ops : List Op) :
    ∀ (st : ManagerState), (∀ p ∈ st.events, p.2.2 ≠ []) →
      ∀ p ∈ (ops.foldl (step env) st).events, p.2.2 ≠ [] := by
  induction ops with
  | nil => intro st h; exact h
  | cons op rest ih =>
      intro st h
      rw [List.foldl_cons]
      exact ih (step env st op) (step_ledgers_nonempty env op st h)

/-- C7: in every state reachable by any sequence of operations (successful
and failing registrations, deregistrations, disposals) from a fresh manager,
a ledger stored for a target always records at least one live binding in its
handle map.  Conversely a live binding is, by definition, an entry of a
stored ledger, so a ledger exists for a target exactly when the target has a
live binding: `register` creates the ledger for an untracked target, and
releasing the last binding deletes it (see the deregistration theorems). -/
theorem ledger_iff_live_binding (env : DetachEnv) (ops : List Op) (t : Nat)
    (stk : Stack) (m : HandleMap)
    (hl : mapGet t (run env ops).events = some (stk, m)) : m ≠ [] := by
  have hinit : ∀ p ∈ initState.events, p.2.2 ≠ [] := by
    intro p hp
    simp [initState] at hp
  exact foldl_ledgers_nonempty env ops initState hinit (t, (stk, m))
    (mapGet_mem hl)

/-- Witness for C7 at a concrete reachable state. -/
theorem ledger_iff_live_binding_witness :
    mapGet 0 (run envOk [Op.regOk 0 "a" 0]).events =
      some (⟨false, [⟨0, "a", 0⟩]⟩, [(0, ⟨0, "a", 0⟩)]) ∧
    ([(0, (⟨0, "a", 0⟩ : Binding))] : HandleMap) ≠ [] :=
  ⟨by decide,
   ledger_iff_live_binding envOk [Op.regOk 0 "a" 0] 0
     ⟨false, [⟨0, "a", 0⟩]⟩ [(0, ⟨0, "a", 0⟩)] (by decide)⟩

/-! ### Claim C10: handle lookup is scoped to the given target -/

theorem mapGet_mapSet_cases {β : Type} {h k : Nat} {v w : β}
    {l : List (Nat × β)} (hg : mapGet h (mapSet k v l) = some w) :
    (h = k ∧ w = v) ∨ mapGet h l = some w := by
  by_cases he : h = k
  · subst he
    rw [mapGet_mapSet_self] at hg
    exact Or.inl ⟨rfl, (Option.some_injective _ hg).symm⟩
  · rw [mapGet_mapSet_ne he] at hg
    exact Or.inr hg

theorem mapGet_mapDelete_le {β : Type} {h k : Nat} {b : β}
    {l : List (Nat × β)} (hg : mapGet h (mapDelete k l) = some b) :
    mapGet h l = some b := by
  by_cases he : h = k
  · subst he
    rw [mapGet_mapDelete_self] at hg
    exact Option.noConfusion hg
  · exact mapGet_mapDelete_some he hg

theorem handlesOk_mapSet {st : ManagerState} {t : Nat} {v : Ledger}
    {d : Bool} {n' : Nat}
    (hOk : HandlesOk st) (hle : st.nextSym ≤ n')
    (hnew : ∀ h b, mapGet h v.2 = some b →
      (h = st.nextSym ∧ st.nextSym < n') ∨
      ∃ stk0 m0, mapGet t st.events = some (stk0, m0) ∧ mapGet h m0 = some b) :
    HandlesOk ⟨d, mapSet t v st.events, n'⟩ := by
  obtain ⟨hB, hS⟩ := hOk
  constructor
  · intro p hp h b hg
    dsimp only
    rcases mem_mapSet hp with rfl | hp'
    · rcases hnew h b hg with ⟨heq, hlt⟩ | ⟨stk0, m0, hg0, hgm⟩
      · omega
      · exact lt_of_lt_of_le (hB (t, (stk0, m0)) (mapGet_mem hg0) h b hgm) hle
    · exact lt_of_lt_of_le (hB p hp' h b hg) hle
  · intro p hp p' hp' h b b' hg hg'
    rcases mem_mapSet hp with rfl | hp1 <;> rcases mem_mapSet hp' with rfl | hp2
    · rfl
    · rcases hnew h b hg with ⟨heq, hlt⟩ | ⟨stk0, m0, hg0, hgm⟩
      · exfalso
        have := hB p' hp2 h b' hg'
        omega
      · exact hS (t, (stk0, m0)) (mapGet_mem hg0) p' hp2 h b b' hgm hg'
    · rcases hnew h b' hg' with ⟨heq, hlt⟩ | ⟨stk0, m0, hg0, hgm⟩
      · exfalso
        have := hB p hp1 h b hg
        omega
      · exact (hS (t, (stk0, m0)) (mapGet_mem hg0) p hp1 h b' b hgm hg).symm
    · exact hS p hp1 p' hp2 h b b' hg hg'

theorem handlesOk_mapDelete {st : ManagerState} {t : Nat} {d : Bool}
    (hOk : HandlesOk st) :
    HandlesOk ⟨d, mapDelete t st.events, st.nextSym⟩ := by
  obtain ⟨hB, hS⟩ := hOk
  exact ⟨fun p hp h b hg => hB p (mem_mapDelete hp) h b hg,
         fun p hp p' hp' h b b' hg hg' =>
           hS p (mem_mapDelete hp) p' (mem_mapDelete hp') h b b' hg hg'⟩

theorem step_handlesOk (env : DetachEnv) (op : Op) (st : ManagerState)
    (hOk : HandlesOk st) : HandlesOk (step env st op) := by
  cases op with
  | regOk t e c =>
      unfold step register
      dsimp only
      cases hget : mapGet t st.events with
      | none =>
          dsimp only
          refine handlesOk_mapSet hOk (Nat.le_succ _) ?_
          intro h b hg
          by_cases he : st.nextSym = h
          · subst he
            exact Or.inl ⟨rfl, Nat.lt_succ_self _⟩
          · simp [mapGet, he] at hg
      | some q =>
          obtain ⟨stk, m⟩ := q
          dsimp only
          cases hd : stk.disposed with
          | true =>
              simp only [hd, if_true]
              exact hOk
          | false =>
              simp only [hd, Bool.false_eq_true, if_false]
              refine handlesOk_mapSet hOk (Nat.le_succ _) ?_
              intro h b hg
              rcases mapGet_mapSet_cases hg with ⟨heq, hv⟩ | hg'
              · exact Or.inl ⟨heq, Nat.lt_succ_self _⟩
              · exact Or.inr ⟨stk, m, hget, hg'⟩
  | regFail t e c =>
      unfold step register
      dsimp only
      cases hget : mapGet t st.events with
      | none => exact hOk
      | some q =>
          obtain ⟨stk, m⟩ := q
          dsimp only
          cases hd : stk.disposed with
          | true =>
              simp only [hd, if_true]
              exact hOk
          | false =>
              simp only [hd, Bool.false_eq_true, if_false, if_true]
              refine handlesOk_mapSet hOk (le_refl _) ?_
              intro h b hg
              exact Or.inr ⟨stk, m, hget, hg⟩
  | dereg t h =>
      unfold step deregister
      dsimp only
      cases hget : mapGet t st.events with
      | none => exact hOk
      | some q =>
          obtain ⟨stk, m⟩ := q
          dsimp only
          cases hh : mapGet h m with
          | none => exact hOk
          | some b =>
              dsimp only
              cases hd : stk.disposed with
              | true =>
                  simp only [hd, if_true]
                  exact hOk
              | false =>
                  simp only [hd, Bool.false_eq_true, if_false]
                  cases hemp : (mapDelete h m).isEmpty with
                  | true =>
                      simp only [if_true]
                      exact handlesOk_mapDelete hOk
                  | false =>
                      simp only [Bool.false_eq_true, if_false]
                      refine handlesOk_mapSet hOk (le_refl _) ?_
                      intro h' b' hg
                      exact Or.inr ⟨stk, m, hget, mapGet_mapDelete_le hg⟩
  | dispose =>
      unfold step disposeAll
      dsimp only
      cases hd : st.disposed with
      | true =>
          simp only [hd, if_true]
          exact hOk
      | false =>
          simp only [hd, Bool.false_eq_true, if_false]
          constructor
          · intro p hp
            simp at hp
          · intro p hp
            simp at hp

theorem foldl_handlesOk (env : DetachEnv) (ops : List Op) :
    ∀ st : ManagerState, HandlesOk st → HandlesOk (ops.foldl (step env) st) := by
  induction ops with
  | nil => intro st h; exact h
  | cons op rest ih =>
      intro st h
      rw [List.foldl_cons]
      exact ih _ (step_handlesOk env op st h)

theorem run_handlesOk (env : DetachEnv) (ops : List Op) :
    HandlesOk (run env ops) := by
  refine foldl_handlesOk env ops initState ⟨?_, ?_⟩ <;>
    intro p hp <;> simp [initState] at hp

/-- C10: handle lookup in `deregister` is scoped to the given target's own
ledger.  For any reachable registry, a handle `h` issued on target `t1`
(that is, resolving in `t1`'s handle map) is found in no other target's
ledger, so `deregister(t2, h)` for any `t2 ≠ t1` — tracked or not — only
warns, performs no detach, throws nothing, leaves the state unchanged, and
`h`'s binding on `t1` remains live. -/
theorem deregister_scoped_to_target (env : DetachEnv) (ops : List Op)
    (t1 t2 h : Nat) (stk : Stack) (m : HandleMap) (b : Binding)
    (hne : t2 ≠ t1)
    (h1 : mapGet t1 (run env ops).events = some (stk, m))
    (hb : mapGet h m = some b) :
    deregister env t2 h (run env ops) = ⟨run env ops, [Ev.warn], false⟩ ∧
    mapGet t1 (deregister env t2 h (run env ops)).state.events =
      some (stk, m) := by
  have hnoop : deregister env t2 h (run env ops) =
      ⟨run env ops, [Ev.warn], false⟩ := by
    apply deregister_warn_of_absent
    intro stk2 m2 hget2
    cases hh2 : mapGet h m2 with
    | none => rfl
    | some b2 =>
        exfalso
        have hsep := (run_handlesOk env ops).2 (t2, (stk2, m2))
          (mapGet_mem hget2) (t1, (stk, m)) (mapGet_mem h1) h b2 b hh2 hb
        exact hne hsep
  refine ⟨hnoop, ?_⟩
  rw [hnoop]
  exact h1

/-- Witness for C10: handle `0` lives on target `0`; deregistering it
against the tracked target `1` warns and leaves everything, including the
binding on target `0`, untouched. -/
theorem deregister_scoped_to_target_witness :
    (1 : Nat) ≠ 0 ∧
    mapGet 0 (run envOk [Op.regOk 0 "a" 0, Op.regOk 1 "b" 1]).events =
      some (⟨false, [⟨0, "a", 0⟩]⟩, [(0, ⟨0, "a", 0⟩)]) ∧
    mapGet 0 ([(0, ⟨0, "a", 0⟩)] : HandleMap) = some (⟨0, "a", 0⟩ : Binding) ∧
    (deregister envOk 1 0 (run envOk [Op.regOk 0 "a" 0, Op.regOk 1 "b" 1]) =
      ⟨run envOk [Op.regOk 0 "a" 0, Op.regOk 1 "b" 1], [Ev.warn], false⟩ ∧
     mapGet 0 (deregister envOk 1 0
       (run envOk [Op.regOk 0 "a" 0, Op.regOk 1 "b" 1])).state.events =
       some (⟨false, [⟨0, "a", 0⟩]⟩, [(0, ⟨0, "a", 0⟩)])) :=
  ⟨by decide, by decide, by decide,
   deregister_scoped_to_target envOk [Op.regOk 0 "a" 0, Op.regOk 1 "b" 1]
     0 1 0 ⟨false, [⟨0, "a", 0⟩]⟩ [(0, ⟨0, "a", 0⟩)] ⟨0, "a", 0⟩
     (by decide) (by decide) (by decide)⟩

/-! ### Claim C8: teardown never throws and disposal stays best-effort -/

theorem detaches_stackDispose (env : DetachEnv) (stk : Stack) :
    detaches (stackDispose env stk) =
      if stk.disposed then []
      else stk.entries.map (fun b => (b.target, b.eventName, b.callback)) := by
  unfold stackDispose
  cases hd : stk.disposed with
  | true => simp [detaches]
  | false =>
      simp only [Bool.false_eq_true, if_false]
      exact detaches_flatten_closures env stk.entries

theorem detaches_flatten_stacks (env : DetachEnv) :
    ∀ l : List (Nat × Ledger), (∀ p ∈ l, p.2.1.disposed = false) →
      detaches ((l.map (fun p => stackDispose env p.2.1)).flatten) =
        (l.map (fun p => p.2.1.entries.map
          (fun b => (b.target, b.eventName, b.callback)))).flatten := by
  intro l
  induction l with
  | nil => intro _; rfl
  | cons p rest ih =>
      intro hlive
      simp only [List.map_cons, List.flatten_cons]
      unfold detaches at ih ⊢
      rw [List.filterMap_append,
        ih (fun q hq => hlive q (List.mem_cons_of_mem _ hq))]
      have hds := detaches_stackDispose env p.2.1
      rw [hlive p (List.mem_cons_self _ _)] at hds
      unfold detaches at hds
      rw [hds]
      simp

/-- C8: teardown never throws, and bulk disposal is best-effort.  Whatever
pattern of `removeEventListener` failures the targets produce (any
`DetachEnv`), the stored release closure invoked by `deregister` completes
without propagating an exception whenever the stored stacks are live, and
when the disposal body runs it attempts a `removeEventListener` for every
deferred binding of every target — one failing release prevents neither the
remaining bindings on that target nor the remaining targets. -/
theorem teardown_never_throws (env : DetachEnv) (st : ManagerState)
    (t h : Nat)
    (hlive : ∀ p ∈ st.events, p.2.1.disposed = false) :
    (deregister env t h st).threw = false ∧
    (st.disposed = false →
      detaches (disposeAll env st).2 =
        (st.events.map (fun p => p.2.1.entries.map
          (fun b => (b.target, b.eventName, b.callback)))).flatten) := by
  constructor
  · unfold deregister
    cases hget : mapGet t st.events with
    | none => rfl
    | some q =>
        obtain ⟨stk, m⟩ := q
        dsimp only
        cases hh : mapGet h m with
        | none => rfl
        | some b =>
            dsimp only
            have hd : stk.disposed = false :=
              hlive (t, (stk, m)) (mapGet_mem hget)
            simp only [hd, Bool.false_eq_true, if_false]
            cases hemp : (mapDelete h m).isEmpty with
            | true =>
                simp only [if_true]
            | false =>
                simp only [Bool.false_eq_true, if_false]
  · intro hdisp
    unfold disposeAll
    simp only [hdisp, Bool.false_eq_true, if_false]
    have hmain := detaches_flatten_stacks env st.events hlive
    unfold detaches at hmain ⊢
    rw [List.filterMap_append, hmain]
    simp

/-- Witness for C8 in the worst environment: every detach throws, yet
`deregister` reports no exception and disposal still attempts every deferred
release on both targets. -/
theorem teardown_never_throws_witness :
    (∀ p ∈ (run envBad
        [Op.regOk 0 "a" 0, Op.regOk 0 "b" 1, Op.regOk 1 "c" 2]).events,
      p.2.1.disposed = false) ∧
    ((deregister envBad 0 0 (run envBad
        [Op.regOk 0 "a" 0, Op.regOk 0 "b" 1, Op.regOk 1 "c" 2])).threw
      = false ∧
     ((run envBad
        [Op.regOk 0 "a" 0, Op.regOk 0 "b" 1, Op.regOk 1 "c" 2]).disposed
        = false →
      detaches (disposeAll envBad (run envBad
        [Op.regOk 0 "a" 0, Op.regOk 0 "b" 1, Op.regOk 1 "c" 2])).2 =
        ((run envBad
          [Op.regOk 0 "a" 0, Op.regOk 0 "b" 1, Op.regOk 1 "c" 2]).events.map
          (fun p => p.2.1.entries.map
            (fun b => (b.target, b.eventName, b.callback)))).flatten)) :=
  ⟨by decide,
   teardown_never_throws envBad
     (run envBad [Op.regOk 0 "a" 0, Op.regOk 0 "b" 1, Op.regOk 1 "c" 2])
     0 0 (by decide)⟩
